import Mathlib

/-
Verification of `add_files_to_xcode.py`, a script that inserts three new
file entries into an Xcode `project.pbxproj` document by regex-anchored
string splicing.

The document is modelled as a `List Char`.  Python's `re.search` on a
literal pattern is modelled by `findSub` (index of the leftmost
occurrence).  The one non-literal pattern,
`FF1A...123 /\* ProfileView\.swift \*/.*?sourceTree = "<group>";` with
`re.DOTALL`, is a literal prefix, a lazy gap, and a literal suffix; its
leftmost-then-shortest match semantics is modelled by `searchSpan`
(see the comment there).  Each insertion `content[:i] + new + content[i:]`
is modelled by `insertAt`.
-/

set_option maxHeartbeats 1000000
set_option maxRecDepth 100000

namespace XcodePatch

/-- Documents and text fragments: a Python `str` is a list of characters. -/
abbrev Str := List Char

/-- Characters of a Lean string literal, used to transcribe the script's literals. -/
def strLit (s : String) : Str := s.data

/-- Decides whether `n` is a prefix of `h`. -/
def isPreOf : Str → Str → Bool
  | [], _ => true
  | _ :: _, [] => false
  | a :: n, b :: h => a == b && isPreOf n h

/-- Index of the leftmost occurrence of `n` in `h`: Python `re.search` on a
literal pattern (`group_pattern`, `sources_pattern`, `build_file_pattern`),
returning the match start. -/
def findSub (n : Str) : Str → Option Nat
  | [] => if isPreOf n [] then some 0 else none
  | c :: h => if isPreOf n (c :: h) then some 0 else (findSub n h).map (· + 1)

/-- Leftmost occurrence of `n` in `h` at or after index `start`. -/
def findSubFrom (n hay : Str) (start : Nat) : Option Nat :=
  (findSub n (hay.drop start)).map (· + start)

/-- Python `re.search(pre + ".*?" + suf, hay, re.DOTALL)` for literal `pre`,
`suf`, returning the match END offset (`match.end()`).  `re.search` picks the
leftmost start `i` at which the whole pattern matches and, the gap being lazy,
the shortest extension, so the end is the first occurrence of `suf` at or
after `i + pre.length`.  If the leftmost occurrence `i` of `pre` has no
occurrence of `suf` at `j ≥ i + pre.length` then no later occurrence `i' > i`
of `pre` has one either (such a `j` would also serve `i`), so using the
leftmost `pre` occurrence is exactly `re.search`'s choice. -/
def searchSpan (pre suf hay : Str) : Option Nat :=
  match findSub pre hay with
  | none => none
  | some i =>
    match findSubFrom suf hay (i + pre.length) with
    | none => none
    | some j => some (j + suf.length)

/-- Python `content[:i] + ins + content[i:]`. -/
def insertAt (s : Str) (i : Nat) (ins : Str) : Str := s.take i ++ ins ++ s.drop i

/-- A single newline, the separator of `'\n'.join(...)`. -/
def newline : Str := strLit "\n"

/-- Python `'\n'.join(ls)`. -/
def joinNL : List Str → Str
  | [] => []
  | [l] => l
  | l :: ls => l ++ newline ++ joinNL ls

/-- Number of indices at which `n` occurs in `h` (used to count inserted lines
by a characteristic marker). -/
def countOccur (n : Str) : Str → Nat
  | [] => 0
  | c :: h => (if isPreOf n (c :: h) then 1 else 0) + countOccur n h

/-- Line 11 of the script: `str(uuid.uuid4()).replace('-', '').upper()[:24]`,
as a function of the textual form `u` of the freshly drawn UUID. -/
def genId (u : Str) : Str := ((u.filter (fun c => c != '-')).map Char.toUpper).take 24

/-- The three file names hard-coded in `files_to_add`. -/
def name1 : Str := strLit "BlockedUsersManager.swift"

/-- Second hard-coded file name. -/
def name2 : Str := strLit "BlockedUsersView.swift"

/-- Third hard-coded file name. -/
def name3 : Str := strLit "TermsOfService.swift"

/-- `files_to_add`, parameterised by the three freshly generated identifiers. -/
def files_to_add (i1 i2 i3 : Str) : List (Str × Str) :=
  [(name1, i1), (name2, i2), (name3, i3)]

/-- Literal prefix of `file_ref_pattern` (the PBXFileReference anchor). -/
def fileRefPre : Str := strLit "FF1A4CE429A1A2D000000123 /* ProfileView.swift */"

/-- Literal suffix of `file_ref_pattern`. -/
def fileRefSuf : Str := strLit "sourceTree = \"<group>\";"

/-- `group_pattern`: the PBXGroup children-list anchor line. -/
def groupAnchor : Str := strLit "B6A2F53817229565D50548F7 /* EventPhotosViewModel.swift */,"

/-- `sources_pattern`: the PBXSourcesBuildPhase anchor line. -/
def sourcesAnchor : Str := strLit "FF1A4CE429A1A2D000000224 /* ProfileView.swift in Sources */,"

/-- `build_file_pattern`: the PBXBuildFile section header. -/
def buildFileAnchor : Str := strLit "/* Begin PBXBuildFile section */"

/-- One PBXFileReference declaration line built in the `file_ref_match` block. -/
def fileRefLine (fn fid : Str) : Str :=
  strLit "\t\t" ++ fid ++ strLit " /* " ++ fn ++
    strLit " */ = \x7bisa = PBXFileReference; lastKnownFileType = sourcecode.swift; path = " ++
    fn ++ strLit "; sourceTree = \"<group>\"; \x7d;"

/-- One group-membership line built in the `group_match` block. -/
def groupLine (fn fid : Str) : Str :=
  strLit "\t\t\t\t" ++ fid ++ strLit " /* " ++ fn ++ strLit " */,"

/-- One PBXBuildFile declaration line (`build_file_entry`). -/
def buildFileLine (fn fid bid : Str) : Str :=
  strLit "\t\t" ++ bid ++ strLit " /* " ++ fn ++
    strLit " in Sources */ = \x7bisa = PBXBuildFile; fileRef = " ++ fid ++
    strLit " /* " ++ fn ++ strLit " */; \x7d;"

/-- One build-phase membership line appended to `new_build_refs`. -/
def sourcesLine (fn bid : Str) : Str :=
  strLit "\t\t\t\t" ++ bid ++ strLit " /* " ++ fn ++ strLit " in Sources */,"

/-- Lines 16-28 of the script: if `file_ref_pattern` matches, insert the three
joined PBXFileReference lines at the match end. -/
def step1 (fs : List (Str × Str)) (content : Str) : Str :=
  match searchSpan fileRefPre fileRefSuf content with
  | none => content
  | some e => insertAt content e (newline ++ joinNL (fs.map (fun p => fileRefLine p.1 p.2)))

/-- Lines 30-41: if `group_pattern` matches, insert the three joined
group-membership lines at the match end. -/
def step2 (fs : List (Str × Str)) (content : Str) : Str :=
  match findSub groupAnchor content with
  | none => content
  | some g =>
    insertAt content (g + groupAnchor.length)
      (newline ++ joinNL (fs.map (fun p => groupLine p.1 p.2)))

/-- The per-entry loop of lines 50-63: for each entry (paired with its fresh
build identifier), re-search `build_file_pattern` in the CURRENT document and,
if found, insert the PBXBuildFile line at its end; accumulate the build-phase
membership lines (`new_build_refs`) in entry order. -/
def buildLoop : List ((Str × Str) × Str) → Str → Str × List Str
  | [], c => (c, [])
  | (p, bid) :: rest, c =>
    let c1 := match findSub buildFileAnchor c with
      | none => c
      | some q => insertAt c (q + buildFileAnchor.length) (newline ++ buildFileLine p.1 p.2 bid)
    let r := buildLoop rest c1
    (r.1, sourcesLine p.1 bid :: r.2)

/-- Lines 43-66: if `sources_pattern` matches, run the per-entry loop and then
insert the joined accumulated membership lines at the match end offset that
was computed BEFORE the loop (the source keeps `sources_match` from line 45
and uses `sources_match.end()` on line 65, after the loop has mutated
`content`). -/
def step3 (fs : List (Str × Str)) (b1 b2 b3 : Str) (content : Str) : Str :=
  match findSub sourcesAnchor content with
  | none => content
  | some s =>
    let r := buildLoop (fs.zip [b1, b2, b3]) content
    insertAt r.1 (s + sourcesAnchor.length) (newline ++ joinNL r.2)

/-- The whole in-memory transformation of the script: steps 1-3 in order,
on the entries `files_to_add i1 i2 i3` with build identifiers `b1 b2 b3`. -/
def patch (i1 i2 i3 b1 b2 b3 content : Str) : Str :=
  step3 (files_to_add i1 i2 i3) b1 b2 b3
    (step2 (files_to_add i1 i2 i3) (step1 (files_to_add i1 i2 i3) content))

/-- Lines 72-74: the confirmation printed on stdout, a fixed header plus one
line per entry. -/
def confirmation (fs : List (Str × Str)) : List Str :=
  strLit "Successfully added files to Xcode project:" ::
    fs.map (fun p => strLit "  - " ++ p.1 ++ strLit " (" ++ p.2 ++ strLit ")")

/-- The whole program as a function of the UUID stream: the three entry
identifiers come from draws 0-2, the three build identifiers from draws 3-5,
each passed through `genId`; the result is the final document and the printed
confirmation lines. -/
def runProgram (uuids : Nat → Str) (content : Str) : Str × List Str :=
  (patch (genId (uuids 0)) (genId (uuids 1)) (genId (uuids 2))
     (genId (uuids 3)) (genId (uuids 4)) (genId (uuids 5)) content,
   confirmation (files_to_add (genId (uuids 0)) (genId (uuids 1)) (genId (uuids 2))))

/-- Phases of the script's run: before the read, after the read, after the
in-memory transformation, after the write-back. -/
inductive Stage
  | start
  | readDone
  | patched
  | written
deriving DecidableEq

/-- A state of the run: current phase, content of the target file on disk,
and the in-memory `content` variable. -/
structure MState where
  stage : Stage
  disk : Str
  mem : Str

/-- Observable I/O-relevant events of the run. -/
inductive Ev
  | evRead
  | evTransform
  | evWrite
deriving DecidableEq

/-- Small-step transitions of the script: read the file (lines 6-7), apply
the in-memory transformation (lines 10-66), write the result back (lines
69-70).  A crash at any point is modelled by an execution that simply stops. -/
inductive ProgStep (i1 i2 i3 b1 b2 b3 : Str) : MState → Ev → MState → Prop where
  | read (d m : Str) :
      ProgStep i1 i2 i3 b1 b2 b3 ⟨Stage.start, d, m⟩ Ev.evRead ⟨Stage.readDone, d, d⟩
  | transform (d m : Str) :
      ProgStep i1 i2 i3 b1 b2 b3 ⟨Stage.readDone, d, m⟩ Ev.evTransform
        ⟨Stage.patched, d, patch i1 i2 i3 b1 b2 b3 m⟩
  | write (d m : Str) :
      ProgStep i1 i2 i3 b1 b2 b3 ⟨Stage.patched, d, m⟩ Ev.evWrite ⟨Stage.written, m, m⟩

/-- Finite executions of the script (possibly stopping early), recording the
events performed. -/
inductive Exec (i1 i2 i3 b1 b2 b3 : Str) : MState → List Ev → MState → Prop where
  | nil (s : MState) : Exec i1 i2 i3 b1 b2 b3 s [] s
  | cons {s s1 s2 : MState} {e : Ev} {evs : List Ev} :
      ProgStep i1 i2 i3 b1 b2 b3 s e s1 → Exec i1 i2 i3 b1 b2 b3 s1 evs s2 →
      Exec i1 i2 i3 b1 b2 b3 s (e :: evs) s2

/-- Number of completed write-backs in a given phase: 1 once (and only once)
the write of lines 69-70 has happened. -/
def writeFlag : Stage → Nat
  | Stage.written => 1
  | _ => 0

/-- Invariant of the run started on disk content `d0`: the disk holds `d0`
until the write, the memory holds what the preceding phases computed, and
after the write the disk holds the patched text. -/
def InvD (i1 i2 i3 b1 b2 b3 d0 : Str) (s : MState) : Prop :=
  match s.stage with
  | Stage.start => s.disk = d0
  | Stage.readDone => s.disk = d0 ∧ s.mem = d0
  | Stage.patched => s.disk = d0 ∧ s.mem = patch i1 i2 i3 b1 b2 b3 d0
  | Stage.written => s.disk = patch i1 i2 i3 b1 b2 b3 d0

/-- `n` occurs in `hay` starting at index `j`. -/
def OccursAt (n hay : Str) (j : Nat) : Prop := ∃ t, n ++ t = hay.drop j

/-- `n` occurs somewhere in `hay`. -/
def Occurs (n hay : Str) : Prop := ∃ j, OccursAt n hay j

/-- Concrete entry identifier used by witnesses (stands in for a generated id). -/
def wid1 : Str := strLit "AAAAAAAAAAAAAAAAAAAAAAA1"

/-- Second concrete entry identifier for witnesses. -/
def wid2 : Str := strLit "AAAAAAAAAAAAAAAAAAAAAAA2"

/-- Third concrete entry identifier for witnesses. -/
def wid3 : Str := strLit "AAAAAAAAAAAAAAAAAAAAAAA3"

/-- Concrete build identifier used by witnesses. -/
def wbid1 : Str := strLit "BBBBBBBBBBBBBBBBBBBBBBB1"

/-- Second concrete build identifier for witnesses. -/
def wbid2 : Str := strLit "BBBBBBBBBBBBBBBBBBBBBBB2"

/-- Third concrete build identifier for witnesses. -/
def wbid3 : Str := strLit "BBBBBBBBBBBBBBBBBBBBBBB3"

/-- Test document containing the three anchor lines verbatim but NOT the
`PBXBuildFile` section header. -/
def docNoBuildHeader : Str :=
  strLit "FF1A4CE429A1A2D000000123 /* ProfileView.swift */ = \x7bisa = PBXFileReference; sourceTree = \"<group>\"; \x7d;\n\t\t\t\tB6A2F53817229565D50548F7 /* EventPhotosViewModel.swift */,\n\t\t\t\tFF1A4CE429A1A2D000000224 /* ProfileView.swift in Sources */,\n"

/-- Test document containing all three anchor lines and the `PBXBuildFile`
section header. -/
def docAllAnchors : Str :=
  strLit "/* Begin PBXBuildFile section */\nFF1A4CE429A1A2D000000123 /* ProfileView.swift */ = \x7bisa = PBXFileReference; sourceTree = \"<group>\"; \x7d;\n\t\t\t\tB6A2F53817229565D50548F7 /* EventPhotosViewModel.swift */,\n\t\t\t\tFF1A4CE429A1A2D000000224 /* ProfileView.swift in Sources */,\n"

/-- Test document in which the `PBXBuildFile` section header precedes the
build-phase anchor (the realistic `project.pbxproj` layout), with the other
anchors absent. -/
def docHeaderFirst : Str :=
  strLit "/* Begin PBXBuildFile section */\n\t\t\t\tFF1A4CE429A1A2D000000224 /* ProfileView.swift in Sources */,\n"

/-- Test document with the reference-declaration anchor and the build-phase
anchor but no group-membership anchor. -/
def docNoGroup : Str :=
  strLit "FF1A4CE429A1A2D000000123 /* ProfileView.swift */ = \x7bisa = PBXFileReference; sourceTree = \"<group>\"; \x7d;\n\t\t\t\tFF1A4CE429A1A2D000000224 /* ProfileView.swift in Sources */,\n"

/-- Outcome of a run on a document in which all four anchors occur: each of
the four insertion steps fires exactly once, inserting respectively the three
reference-declaration lines, the three group-membership lines, the three
build-file-declaration lines (one insertion per entry at the header, ending
in reverse entry order), and the three build-phase-membership lines; each
inserted line contains the name of the entry it was generated for. -/
def AllAnchorsOutcome (i1 i2 i3 b1 b2 b3 content : Str) : Prop :=
  ∃ e g p q,
    searchSpan fileRefPre fileRefSuf content = some e ∧
    step1 (files_to_add i1 i2 i3) content =
      insertAt content e (newline ++ joinNL
        [fileRefLine name1 i1, fileRefLine name2 i2, fileRefLine name3 i3]) ∧
    findSub groupAnchor (step1 (files_to_add i1 i2 i3) content) = some g ∧
    step2 (files_to_add i1 i2 i3) (step1 (files_to_add i1 i2 i3) content) =
      insertAt (step1 (files_to_add i1 i2 i3) content) (g + groupAnchor.length)
        (newline ++ joinNL [groupLine name1 i1, groupLine name2 i2, groupLine name3 i3]) ∧
    findSub sourcesAnchor
      (step2 (files_to_add i1 i2 i3) (step1 (files_to_add i1 i2 i3) content)) = some p ∧
    findSub buildFileAnchor
      (step2 (files_to_add i1 i2 i3) (step1 (files_to_add i1 i2 i3) content)) = some q ∧
    patch i1 i2 i3 b1 b2 b3 content =
      insertAt
        ((step2 (files_to_add i1 i2 i3) (step1 (files_to_add i1 i2 i3) content)).take
            (q + buildFileAnchor.length) ++
          ((newline ++ buildFileLine name3 i3 b3) ++
           ((newline ++ buildFileLine name2 i2 b2) ++
            ((newline ++ buildFileLine name1 i1 b1) ++
              (step2 (files_to_add i1 i2 i3)
                (step1 (files_to_add i1 i2 i3) content)).drop (q + buildFileAnchor.length)))))
        (p + sourcesAnchor.length)
        (newline ++ joinNL [sourcesLine name1 b1, sourcesLine name2 b2, sourcesLine name3 b3]) ∧
    (Occurs name1 (fileRefLine name1 i1) ∧ Occurs name2 (fileRefLine name2 i2) ∧
      Occurs name3 (fileRefLine name3 i3)) ∧
    (Occurs name1 (groupLine name1 i1) ∧ Occurs name2 (groupLine name2 i2) ∧
      Occurs name3 (groupLine name3 i3)) ∧
    (Occurs name1 (buildFileLine name1 i1 b1) ∧ Occurs name2 (buildFileLine name2 i2 b2) ∧
      Occurs name3 (buildFileLine name3 i3 b3)) ∧
    (Occurs name1 (sourcesLine name1 b1) ∧ Occurs name2 (sourcesLine name2 b2) ∧
      Occurs name3 (sourcesLine name3 b3))

theorem isPreOf_iff (n : Str) : ∀ h : Str, isPreOf n h = true ↔ ∃ t, n ++ t = h := by
  induction n with
  | nil => intro h; simp [isPreOf]
  | cons a n ih =>
    intro h
    cases h with
    | nil => simp [isPreOf]
    | cons b h' =>
      simp only [isPreOf, Bool.and_eq_true, beq_iff_eq, ih, List.cons_append, List.cons.injEq]
      constructor
      · rintro ⟨rfl, t, rfl⟩; exact ⟨t, rfl, rfl⟩
      · rintro ⟨t, rfl, rfl⟩; exact ⟨rfl, t, rfl⟩

theorem findSub_some {n : Str} : ∀ {h : Str} {j : Nat}, findSub n h = some j → OccursAt n h j := by
  intro h
  induction h with
  | nil =>
    intro j hj
    simp only [findSub] at hj
    by_cases hp : isPreOf n [] = true
    · rw [if_pos hp] at hj
      cases hj
      exact (isPreOf_iff n []).1 hp
    · rw [if_neg hp] at hj; cases hj
  | cons c h ih =>
    intro j hj
    simp only [findSub] at hj
    by_cases hp : isPreOf n (c :: h) = true
    · rw [if_pos hp] at hj
      cases hj
      exact (isPreOf_iff n (c :: h)).1 hp
    · rw [if_neg hp] at hj
      rcases Option.map_eq_some'.1 hj with ⟨j0, hj0, rfl⟩
      exact ih hj0

theorem findSub_min {n : Str} : ∀ {h : Str} {j : Nat}, findSub n h = some j →
    ∀ k, k < j → ¬ OccursAt n h k := by
  intro h
  induction h with
  | nil =>
    intro j hj k hk
    simp only [findSub] at hj
    by_cases hp : isPreOf n [] = true
    · rw [if_pos hp] at hj; cases hj; omega
    · rw [if_neg hp] at hj; cases hj
  | cons c h ih =>
    intro j hj k hk hocc
    simp only [findSub] at hj
    by_cases hp : isPreOf n (c :: h) = true
    · rw [if_pos hp] at hj; cases hj; omega
    · rw [if_neg hp] at hj
      rcases Option.map_eq_some'.1 hj with ⟨j0, hj0, rfl⟩
      cases k with
      | zero => exact hp ((isPreOf_iff n (c :: h)).2 hocc)
      | succ k0 => exact ih hj0 k0 (by omega) hocc

theorem findSub_isSome {n : Str} : ∀ {h : Str} {j : Nat}, OccursAt n h j →
    (findSub n h).isSome = true := by
  intro h
  induction h with
  | nil =>
    intro j hj
    rcases hj with ⟨t, ht⟩
    simp only [List.drop_nil] at ht
    have hn : n = [] := by
      cases n with
      | nil => rfl
      | cons a n => simp at ht
    have hp : isPreOf n [] = true := (isPreOf_iff n []).2 ⟨t, by simp [hn] at ht ⊢; simpa [hn] using ht⟩
    simp [findSub, hp]
  | cons c h ih =>
    intro j hj
    simp only [findSub]
    by_cases hp : isPreOf n (c :: h) = true
    · rw [if_pos hp]; rfl
    · rw [if_neg hp]
      cases j with
      | zero =>
        exact absurd ((isPreOf_iff n (c :: h)).2 hj) hp
      | succ j0 =>
        have : OccursAt n h j0 := hj
        have := ih this
        rcases Option.isSome_iff_exists.1 this with ⟨v, hv⟩
        simp [hv]

theorem findSub_eq_some {n h : Str} {j : Nat} (hocc : OccursAt n h j)
    (hmin : ∀ k, k < j → ¬ OccursAt n h k) : findSub n h = some j := by
  have hs := findSub_isSome hocc
  rcases Option.isSome_iff_exists.1 hs with ⟨j', hj'⟩
  have h1 := findSub_some hj'
  have h2 := findSub_min hj'
  rcases Nat.lt_trichotomy j j' with hlt | heq | hgt
  · exact absurd hocc (h2 j hlt)
  · rw [hj', heq]
  · exact absurd h1 (hmin j' hgt)

theorem occurs_of_isSome {n h : Str} (hs : (findSub n h).isSome = true) : Occurs n h := by
  rcases Option.isSome_iff_exists.1 hs with ⟨j, hj⟩
  exact ⟨j, findSub_some hj⟩

theorem isSome_of_occurs {n h : Str} (ho : Occurs n h) : (findSub n h).isSome = true := by
  rcases ho with ⟨j, hj⟩
  exact findSub_isSome hj

theorem dropAppend : ∀ (j : Nat) (a b : Str), j ≤ a.length → (a ++ b).drop j = a.drop j ++ b := by
  intro j a
  induction a generalizing j with
  | nil =>
    intro b hj
    have : j = 0 := by simpa using hj
    simp [this]
  | cons x a ih =>
    intro b hj
    cases j with
    | zero => simp
    | succ k =>
      simp only [List.cons_append, List.drop_succ_cons]
      exact ih k b (by simpa using hj)

theorem takeAppendLe : ∀ (j : Nat) (a b : Str), j ≤ a.length → (a ++ b).take j = a.take j := by
  intro j a
  induction a generalizing j with
  | nil =>
    intro b hj
    have : j = 0 := by simpa using hj
    simp [this]
  | cons x a ih =>
    intro b hj
    cases j with
    | zero => simp
    | succ k =>
      simp only [List.cons_append, List.take_succ_cons]
      rw [ih k b (by simpa using hj)]

theorem takeAppendGe : ∀ (a b : Str) (k : Nat), a.length ≤ k → (a ++ b).take k = a ++ b.take (k - a.length) := by
  intro a
  induction a with
  | nil => intro b k _; simp
  | cons x a ih =>
    intro b k hk
    cases k with
    | zero => simp at hk
    | succ k' =>
      simp only [List.cons_append, List.take_succ_cons, List.length_cons]
      rw [ih b k' (by simpa using hk)]
      simp [Nat.succ_sub_succ]

theorem dropAppendGe : ∀ (a b : Str) (k : Nat), a.length ≤ k → (a ++ b).drop k = b.drop (k - a.length) := by
  intro a
  induction a with
  | nil => intro b k _; simp
  | cons x a ih =>
    intro b k hk
    cases k with
    | zero => simp at hk
    | succ k' =>
      simp only [List.cons_append, List.drop_succ_cons, List.length_cons]
      rw [ih b k' (by simpa using hk)]
      simp [Nat.succ_sub_succ]

theorem dropTake : ∀ (l : Str) (i j : Nat), (l.take i).drop j = (l.drop j).take (i - j) := by
  intro l
  induction l with
  | nil => intro i j; simp
  | cons c l ih =>
    intro i j
    cases i with
    | zero => simp
    | succ i' =>
      cases j with
      | zero => simp
      | succ j' =>
        simp only [List.take_succ_cons, List.drop_succ_cons, Nat.succ_sub_succ]
        exact ih i' j'

theorem getElemDrop : ∀ (l : Str) (i k : Nat), (l.drop i).get? k = l.get? (i + k) := by
  intro l
  induction l with
  | nil => intro i k; simp
  | cons c l ih =>
    intro i k
    cases i with
    | zero => simp
    | succ i' =>
      simp only [List.drop_succ_cons]
      rw [ih i' k]
      have : i' + 1 + k = (i' + k) + 1 := by omega
      rw [this]
      rfl

theorem occursAt_charAt {n h : Str} {j k : Nat} (ho : OccursAt n h j) (hk : k < n.length) :
    h.get? (j + k) = n.get? k := by
  rcases ho with ⟨t, ht⟩
  rw [← getElemDrop, ← ht, List.get?_append hk]

theorem occursAt_length {n h : Str} {j : Nat} (ho : OccursAt n h j) (hn : n ≠ []) :
    j + n.length ≤ h.length := by
  rcases ho with ⟨t, ht⟩
  have hlen : n.length + t.length = h.length - j := by
    have := congrArg List.length ht
    simpa [List.length_append] using this
  have hpos : 0 < n.length := List.length_pos.2 hn
  omega

theorem insertAt_length (s : Str) (i : Nat) (B : Str) :
    (insertAt s i B).length = s.length + B.length := by
  have h := congrArg List.length (List.take_append_drop i s)
  simp only [List.length_append] at h
  simp only [insertAt, List.length_append]
  omega

theorem occursAt_insertAt_left {n s B : Str} {j i : Nat} (ho : OccursAt n s j)
    (hji : j + n.length ≤ i) (his : i ≤ s.length) : OccursAt n (insertAt s i B) j := by
  rcases ho with ⟨t, ht⟩
  have hjle : j ≤ i := by omega
  have hlt : (s.take i).length = i := by simp [Nat.min_eq_left his]
  refine ⟨t.take (i - j - n.length) ++ (B ++ s.drop i), ?_⟩
  simp only [insertAt, List.append_assoc]
  rw [dropAppend j (s.take i) (B ++ s.drop i) (by omega), dropTake, ← ht,
    takeAppendGe n t (i - j) (by omega)]
  simp [List.append_assoc]

theorem occursAt_of_insertAt_left {n s B : Str} {j i : Nat}
    (ho : OccursAt n (insertAt s i B) j) (hji : j + n.length ≤ i) (his : i ≤ s.length) :
    OccursAt n s j := by
  rcases ho with ⟨t, ht⟩
  simp only [insertAt, List.append_assoc] at ht
  rw [dropAppend j (s.take i) (B ++ s.drop i) (by simp [Nat.min_eq_left his]; omega),
    dropTake] at ht
  have hA : ((s.drop j).take (i - j)).length = i - j := by
    simp [List.length_drop, Nat.min_eq_left]
    omega
  have htake := congrArg (List.take n.length) ht
  rw [takeAppendGe n t n.length (le_refl _), Nat.sub_self, List.take_zero, List.append_nil,
    takeAppendLe n.length _ _ (by omega), List.take_take, Nat.min_eq_left (by omega)] at htake
  refine ⟨(s.drop j).drop n.length, ?_⟩
  calc n ++ (s.drop j).drop n.length
      = (s.drop j).take n.length ++ (s.drop j).drop n.length := by
        exact congrArg (· ++ (s.drop j).drop n.length) htake
    _ = s.drop j := List.take_append_drop _ _

theorem occursAt_insertAt_right {n s B : Str} {j i : Nat} (ho : OccursAt n s j)
    (hij : i ≤ j) (his : i ≤ s.length) : OccursAt n (insertAt s i B) (j + B.length) := by
  rcases ho with ⟨t, ht⟩
  refine ⟨t, ?_⟩
  have hlt : (s.take i).length = i := by simp [Nat.min_eq_left his]
  simp only [insertAt, List.append_assoc]
  rw [dropAppendGe (s.take i) (B ++ s.drop i) (j + B.length) (by omega), hlt,
    dropAppendGe B (s.drop i) (j + B.length - i) (by omega), List.drop_drop]
  have harith : i + (j + B.length - i - B.length) = j := by omega
  rw [harith, ht]

theorem occurs_insertAt_compat {n s B : Str} {i : Nat} {c : Char}
    (hc : s.get? (i - 1) = some c) (hpos : 0 < i) (his : i ≤ s.length)
    (hne : ∀ k, k + 1 < n.length → n.get? k ≠ some c) :
    Occurs n s → Occurs n (insertAt s i B) := by
  rintro ⟨j, ho⟩
  by_cases h1 : j + n.length ≤ i
  · exact ⟨j, occursAt_insertAt_left ho h1 his⟩
  by_cases h2 : i ≤ j
  · exact ⟨j + B.length, occursAt_insertAt_right ho h2 his⟩
  exfalso
  have hk1 : i - 1 - j + 1 < n.length := by omega
  have hkn : i - 1 - j < n.length := by omega
  have := occursAt_charAt ho hkn
  have hj : j + (i - 1 - j) = i - 1 := by omega
  rw [hj, hc] at this
  exact hne (i - 1 - j) hk1 this.symm

theorem interior_ne_of_all {n : Str} {c : Char}
    (h : n.dropLast.all (fun x => x != c) = true) :
    ∀ k, k + 1 < n.length → n.get? k ≠ some c := by
  intro k hk hget
  have hdl : n.dropLast.get? k = some c := by
    rw [List.get?_eq_getElem?] at hget ⊢
    rw [List.getElem?_dropLast, if_pos (by omega)]
    exact hget
  have hmem : c ∈ n.dropLast := List.get?_mem hdl
  have := List.all_eq_true.1 h c hmem
  simp at this

theorem findSub_insertAt_stable {n s B : Str} {q i : Nat}
    (hf : findSub n s = some q) (hi : q + n.length ≤ i) (his : i ≤ s.length) :
    findSub n (insertAt s i B) = some q := by
  apply findSub_eq_some
  · exact occursAt_insertAt_left (findSub_some hf) hi his
  · intro k hk hko
    exact findSub_min hf k hk (occursAt_of_insertAt_left hko (by omega) his)

theorem searchSpan_some {pre suf hay : Str} {e : Nat} (h : searchSpan pre suf hay = some e) :
    ∃ j, OccursAt suf hay j ∧ e = j + suf.length := by
  simp only [searchSpan] at h
  split at h
  · exact absurd h (by simp)
  rename_i i hfp
  split at h
  · exact absurd h (by simp)
  rename_i j hfs
  injection h with he
  simp only [findSubFrom] at hfs
  rcases Option.map_eq_some'.1 hfs with ⟨j0, hj0, rfl⟩
  rcases findSub_some hj0 with ⟨t, ht⟩
  refine ⟨i + pre.length + j0, ⟨t, ?_⟩, by omega⟩
  rw [← List.drop_drop]
  exact ht

theorem occurs_mid (a n b : Str) : Occurs n (a ++ n ++ b) := by
  refine ⟨a.length, b, ?_⟩
  rw [List.append_assoc, dropAppendGe a (n ++ b) a.length (le_refl _), Nat.sub_self,
    List.drop_zero]

theorem takeInsertAtSelf {s X : Str} {i : Nat} (his : i ≤ s.length) :
    (insertAt s i X).take i = s.take i := by
  simp only [insertAt, List.append_assoc]
  rw [takeAppendLe i (s.take i) (X ++ s.drop i) (by simp [Nat.min_eq_left his]),
    List.take_take, Nat.min_self]

theorem dropInsertAtSelf {s X : Str} {i : Nat} (his : i ≤ s.length) :
    (insertAt s i X).drop i = X ++ s.drop i := by
  have hlt : (s.take i).length = i := by simp [Nat.min_eq_left his]
  simp only [insertAt, List.append_assoc]
  rw [dropAppendGe (s.take i) (X ++ s.drop i) i (by omega), hlt, Nat.sub_self, List.drop_zero]

theorem step1_found (fs : List (Str × Str)) {content : Str} {e : Nat}
    (he : searchSpan fileRefPre fileRefSuf content = some e) :
    step1 fs content =
      insertAt content e (newline ++ joinNL (fs.map (fun p => fileRefLine p.1 p.2))) := by
  simp only [step1, he]

theorem step1_none (fs : List (Str × Str)) {content : Str}
    (he : searchSpan fileRefPre fileRefSuf content = none) : step1 fs content = content := by
  simp only [step1, he]

theorem step2_found (fs : List (Str × Str)) {content : Str} {g : Nat}
    (hg : findSub groupAnchor content = some g) :
    step2 fs content =
      insertAt content (g + groupAnchor.length)
        (newline ++ joinNL (fs.map (fun p => groupLine p.1 p.2))) := by
  simp only [step2, hg]

theorem step2_none (fs : List (Str × Str)) {content : Str}
    (hg : findSub groupAnchor content = none) : step2 fs content = content := by
  simp only [step2, hg]

theorem step3_found (fs : List (Str × Str)) (b1 b2 b3 : Str) {content : Str} {p : Nat}
    (hp : findSub sourcesAnchor content = some p) :
    step3 fs b1 b2 b3 content =
      insertAt (buildLoop (fs.zip [b1, b2, b3]) content).1 (p + sourcesAnchor.length)
        (newline ++ joinNL (buildLoop (fs.zip [b1, b2, b3]) content).2) := by
  simp only [step3, hp]

theorem step3_none (fs : List (Str × Str)) (b1 b2 b3 : Str) {content : Str}
    (hp : findSub sourcesAnchor content = none) : step3 fs b1 b2 b3 content = content := by
  simp only [step3, hp]

theorem occurs_step1 (fs : List (Str × Str)) {n content : Str}
    (hne : ∀ k, k + 1 < n.length → n.get? k ≠ some ';') (h : Occurs n content) :
    Occurs n (step1 fs content) := by
  unfold step1
  split
  · exact h
  rename_i e he
  rcases searchSpan_some he with ⟨j2, hocc2, rfl⟩
  have hlen : fileRefSuf.length = 23 := by decide
  have hle : j2 + fileRefSuf.length ≤ content.length :=
    occursAt_length hocc2 (by decide)
  have hc : content.get? (j2 + fileRefSuf.length - 1) = some ';' := by
    have h22 := occursAt_charAt hocc2 (show 22 < fileRefSuf.length by omega)
    rw [show fileRefSuf.get? 22 = some ';' from by decide] at h22
    rw [show j2 + fileRefSuf.length - 1 = j2 + 22 from by omega]
    exact h22
  exact occurs_insertAt_compat hc (by omega) hle hne h

theorem occurs_step2 (fs : List (Str × Str)) {n content : Str}
    (hne : ∀ k, k + 1 < n.length → n.get? k ≠ some ',') (h : Occurs n content) :
    Occurs n (step2 fs content) := by
  unfold step2
  split
  · exact h
  rename_i g hg
  have hocc := findSub_some hg
  have hlen : groupAnchor.length = 58 := by decide
  have hle : g + groupAnchor.length ≤ content.length := occursAt_length hocc (by decide)
  have hc : content.get? (g + groupAnchor.length - 1) = some ',' := by
    have h57 := occursAt_charAt hocc (show 57 < groupAnchor.length by omega)
    rw [show groupAnchor.get? 57 = some ',' from by decide] at h57
    rw [show g + groupAnchor.length - 1 = g + 57 from by omega]
    exact h57
  exact occurs_insertAt_compat hc (by omega) hle hne h

theorem groupAnchor_no_semi : ∀ k, k + 1 < groupAnchor.length → groupAnchor.get? k ≠ some ';' :=
  interior_ne_of_all (by decide)

theorem sourcesAnchor_no_semi :
    ∀ k, k + 1 < sourcesAnchor.length → sourcesAnchor.get? k ≠ some ';' :=
  interior_ne_of_all (by decide)

theorem sourcesAnchor_no_comma :
    ∀ k, k + 1 < sourcesAnchor.length → sourcesAnchor.get? k ≠ some ',' :=
  interior_ne_of_all (by decide)

theorem buildFileAnchor_no_semi :
    ∀ k, k + 1 < buildFileAnchor.length → buildFileAnchor.get? k ≠ some ';' :=
  interior_ne_of_all (by decide)

theorem buildFileAnchor_no_comma :
    ∀ k, k + 1 < buildFileAnchor.length → buildFileAnchor.get? k ≠ some ',' :=
  interior_ne_of_all (by decide)

theorem length_step1_ge (fs : List (Str × Str)) (content : Str) :
    content.length ≤ (step1 fs content).length := by
  unfold step1
  split
  · exact le_refl _
  · rw [insertAt_length]; omega

theorem length_step2_gt (fs : List (Str × Str)) (content : Str)
    (h : (findSub groupAnchor content).isSome = true) :
    content.length < (step2 fs content).length := by
  unfold step2
  split
  · rename_i hnone; rw [hnone] at h; simp at h
  · rw [insertAt_length]
    have : 0 < (newline ++ joinNL (fs.map (fun p => groupLine p.1 p.2))).length := by
      simp [newline, strLit]
    omega

theorem length_buildLoop_ge : ∀ (es : List ((Str × Str) × Str)) (c : Str),
    c.length ≤ (buildLoop es c).1.length := by
  intro es
  induction es with
  | nil => intro c; simp [buildLoop]
  | cons hd tl ih =>
    intro c
    obtain ⟨p, bid⟩ := hd
    simp only [buildLoop]
    have hc1 : c.length ≤ (match findSub buildFileAnchor c with
        | none => c
        | some q =>
          insertAt c (q + buildFileAnchor.length) (newline ++ buildFileLine p.1 p.2 bid)).length := by
      split
      · exact le_refl _
      · rw [insertAt_length]; omega
    exact le_trans hc1 (ih _)

theorem length_step3_ge (fs : List (Str × Str)) (b1 b2 b3 : Str) (content : Str) :
    content.length ≤ (step3 fs b1 b2 b3 content).length := by
  unfold step3
  split
  · exact le_refl _
  · rw [insertAt_length]
    have := length_buildLoop_ge (fs.zip [b1, b2, b3]) content
    omega

theorem patch_grows (i1 i2 i3 b1 b2 b3 content : Str)
    (h : (findSub groupAnchor content).isSome = true) :
    content.length < (patch i1 i2 i3 b1 b2 b3 content).length := by
  have h1 : Occurs groupAnchor content := occurs_of_isSome h
  have h2 : Occurs groupAnchor (step1 (files_to_add i1 i2 i3) content) :=
    occurs_step1 _ groupAnchor_no_semi h1
  have h3 := length_step2_gt (files_to_add i1 i2 i3) (step1 (files_to_add i1 i2 i3) content)
    (isSome_of_occurs h2)
  have h4 := length_step1_ge (files_to_add i1 i2 i3) content
  have h5 := length_step3_ge (files_to_add i1 i2 i3) b1 b2 b3
    (step2 (files_to_add i1 i2 i3) (step1 (files_to_add i1 i2 i3) content))
  unfold patch
  omega

theorem buildLoop_found (e1 e2 e3 : Str × Str) (b1 b2 b3 : Str) {c : Str} {q : Nat}
    (hq : findSub buildFileAnchor c = some q) :
    buildLoop [(e1, b1), (e2, b2), (e3, b3)] c =
      (c.take (q + buildFileAnchor.length) ++
         ((newline ++ buildFileLine e3.1 e3.2 b3) ++
          ((newline ++ buildFileLine e2.1 e2.2 b2) ++
           ((newline ++ buildFileLine e1.1 e1.2 b1) ++ c.drop (q + buildFileAnchor.length)))),
       [sourcesLine e1.1 b1, sourcesLine e2.1 b2, sourcesLine e3.1 b3]) := by
  have hocc := findSub_some hq
  have hqs : q + buildFileAnchor.length ≤ c.length := occursAt_length hocc (by decide)
  have hq1 : findSub buildFileAnchor
      (insertAt c (q + buildFileAnchor.length) (newline ++ buildFileLine e1.1 e1.2 b1)) =
      some q := findSub_insertAt_stable hq (le_refl _) hqs
  have hqs1 : q + buildFileAnchor.length ≤
      (insertAt c (q + buildFileAnchor.length) (newline ++ buildFileLine e1.1 e1.2 b1)).length := by
    rw [insertAt_length]; omega
  have hq2 : findSub buildFileAnchor
      (insertAt (insertAt c (q + buildFileAnchor.length) (newline ++ buildFileLine e1.1 e1.2 b1))
        (q + buildFileAnchor.length) (newline ++ buildFileLine e2.1 e2.2 b2)) =
      some q := findSub_insertAt_stable hq1 (le_refl _) hqs1
  simp only [buildLoop, hq, hq1, hq2]
  refine Prod.ext ?_ rfl
  show insertAt (insertAt (insertAt c (q + buildFileAnchor.length)
      (newline ++ buildFileLine e1.1 e1.2 b1)) (q + buildFileAnchor.length)
      (newline ++ buildFileLine e2.1 e2.2 b2)) (q + buildFileAnchor.length)
      (newline ++ buildFileLine e3.1 e3.2 b3) = _
  have ht1 := takeInsertAtSelf (s := c) (X := newline ++ buildFileLine e1.1 e1.2 b1) hqs
  have hd1 := dropInsertAtSelf (s := c) (X := newline ++ buildFileLine e1.1 e1.2 b1) hqs
  have ht2 := takeInsertAtSelf
    (s := insertAt c (q + buildFileAnchor.length) (newline ++ buildFileLine e1.1 e1.2 b1))
    (X := newline ++ buildFileLine e2.1 e2.2 b2) hqs1
  have hd2 := dropInsertAtSelf
    (s := insertAt c (q + buildFileAnchor.length) (newline ++ buildFileLine e1.1 e1.2 b1))
    (X := newline ++ buildFileLine e2.1 e2.2 b2) hqs1
  have hqs2 : q + buildFileAnchor.length ≤
      (insertAt (insertAt c (q + buildFileAnchor.length)
        (newline ++ buildFileLine e1.1 e1.2 b1)) (q + buildFileAnchor.length)
        (newline ++ buildFileLine e2.1 e2.2 b2)).length := by
    rw [insertAt_length]; omega
  conv_lhs => rw [insertAt]
  rw [ht2, hd2, ht1, hd1]
  simp [List.append_assoc]

theorem sublist_insertAt (s : Str) (i : Nat) (B : Str) : List.Sublist s (insertAt s i B) := by
  have h1 : List.Sublist (s.drop i) (B ++ s.drop i) := List.sublist_append_right B (s.drop i)
  have h2 := h1.append_left (s.take i)
  rw [List.take_append_drop] at h2
  simpa [insertAt, List.append_assoc] using h2

theorem sublist_step1 (fs : List (Str × Str)) (content : Str) : List.Sublist content (step1 fs content) := by
  unfold step1
  split
  · exact List.Sublist.refl _
  · exact sublist_insertAt _ _ _

theorem sublist_step2 (fs : List (Str × Str)) (content : Str) : List.Sublist content (step2 fs content) := by
  unfold step2
  split
  · exact List.Sublist.refl _
  · exact sublist_insertAt _ _ _

theorem sublist_buildLoop : ∀ (es : List ((Str × Str) × Str)) (c : Str),
    List.Sublist c (buildLoop es c).1 := by
  intro es
  induction es with
  | nil => intro c; simp [buildLoop]
  | cons hd tl ih =>
    intro c
    obtain ⟨p, bid⟩ := hd
    simp only [buildLoop]
    have hc1 : List.Sublist c (match findSub buildFileAnchor c with
        | none => c
        | some q =>
          insertAt c (q + buildFileAnchor.length) (newline ++ buildFileLine p.1 p.2 bid)) := by
      split
      · exact List.Sublist.refl _
      · exact sublist_insertAt _ _ _
    exact hc1.trans (ih _)

theorem sublist_step3 (fs : List (Str × Str)) (b1 b2 b3 : Str) (content : Str) :
    List.Sublist content (step3 fs b1 b2 b3 content) := by
  unfold step3
  split
  · exact List.Sublist.refl _
  · exact (sublist_buildLoop _ _).trans (sublist_insertAt _ _ _)

theorem exec_count_write (i1 i2 i3 b1 b2 b3 : Str) :
    ∀ {s : MState} {evs : List Ev} {s' : MState}, Exec i1 i2 i3 b1 b2 b3 s evs s' →
      evs.count Ev.evWrite + writeFlag s.stage = writeFlag s'.stage := by
  intro s evs s' hexec
  induction hexec with
  | nil => simp
  | cons hstep hrest ih =>
    cases hstep with
    | read d m =>
      simpa [List.count_cons, writeFlag,
        show (Ev.evRead == Ev.evWrite) = false from by decide] using ih
    | transform d m =>
      simpa [List.count_cons, writeFlag,
        show (Ev.evTransform == Ev.evWrite) = false from by decide] using ih
    | write d m =>
      have ih2 := ih
      simp only [writeFlag] at ih2 ⊢
      simp only [List.count_cons, show (Ev.evWrite == Ev.evWrite) = true from by decide,
        if_true]
      omega

theorem exec_inv (i1 i2 i3 b1 b2 b3 d0 : Str) :
    ∀ {s : MState} {evs : List Ev} {s' : MState}, Exec i1 i2 i3 b1 b2 b3 s evs s' →
      InvD i1 i2 i3 b1 b2 b3 d0 s → InvD i1 i2 i3 b1 b2 b3 d0 s' := by
  intro s evs s' hexec
  induction hexec with
  | nil => exact id
  | cons hstep hrest ih =>
    intro hs
    apply ih
    cases hstep with
    | read d m =>
      have hd : d = d0 := hs
      exact ⟨hd, hd⟩
    | transform d m =>
      rcases hs with ⟨hd, hm⟩
      refine ⟨hd, ?_⟩
      show patch i1 i2 i3 b1 b2 b3 m = patch i1 i2 i3 b1 b2 b3 d0
      rw [show m = d0 from hm]
    | write d m =>
      rcases hs with ⟨hd, hm⟩
      exact hm

/-- C8: the transformation only inserts text: for every input document and
every choice of identifiers, the input is a sublist (subsequence) of the
output, and in particular no byte is deleted or altered and the length never
decreases. -/
theorem patch_insert_only (i1 i2 i3 b1 b2 b3 content : Str) :
    List.Sublist content (patch i1 i2 i3 b1 b2 b3 content) ∧
    content.length ≤ (patch i1 i2 i3 b1 b2 b3 content).length := by
  have h : List.Sublist content (patch i1 i2 i3 b1 b2 b3 content) := by
    unfold patch
    exact ((sublist_step1 _ content).trans (sublist_step2 _ _)).trans (sublist_step3 _ _ _ _ _)
  exact ⟨h, h.length_le⟩

/-- C10: the program is deterministic once the randomly generated identifiers
are fixed: two runs on the same document whose six UUID draws produce the
same identifiers yield byte-identical output documents and identical printed
confirmation lines. -/
theorem runProgram_deterministic (c : Str) (u1 u2 : Nat → Str)
    (h : ∀ k, k < 6 → genId (u1 k) = genId (u2 k)) :
    runProgram u1 c = runProgram u2 c := by
  unfold runProgram
  rw [h 0 (by omega), h 1 (by omega), h 2 (by omega), h 3 (by omega), h 4 (by omega),
    h 5 (by omega)]

/-- Witness for C10 at two concrete distinct UUID streams whose generated
identifiers coincide. -/
theorem runProgram_deterministic_witness :
    runProgram (fun _ => strLit "ab-cd") [] = runProgram (fun _ => strLit "abc-d") [] :=
  runProgram_deterministic [] (fun _ => strLit "ab-cd") (fun _ => strLit "abc-d")
    (fun _ _ => rfl)

theorem genId_ok (u : Str) (hu : ∀ c ∈ u, c ∈ strLit "0123456789abcdef-")
    (hl : 24 ≤ (u.filter (fun c => c != '-')).length) :
    (genId u).length = 24 ∧ ∀ c ∈ genId u, c ∈ strLit "0123456789ABCDEF" := by
  constructor
  · show (((u.filter (fun c => c != '-')).map Char.toUpper).take 24).length = 24
    rw [List.length_take, List.length_map]
    exact Nat.min_eq_left hl
  · intro c hc
    have hc2 : c ∈ (u.filter (fun c => c != '-')).map Char.toUpper :=
      List.take_subset _ _ hc
    rcases List.mem_map.1 hc2 with ⟨y, hy, rfl⟩
    rcases List.mem_filter.1 hy with ⟨hyu, hyne⟩
    have hdash : y ≠ '-' := by simpa using hyne
    have key : ∀ z, z ∈ strLit "0123456789abcdef-" → z ≠ '-' →
        Char.toUpper z ∈ strLit "0123456789ABCDEF" := by decide
    exact key y (hu y hyu) hdash

/-- C6: every identifier the program generates (the three entry identifiers
of `files_to_add` and the per-entry build identifiers, all produced by the
same `genId` pipeline from a textual UUID, i.e. 32 lowercase hex digits
grouped by hyphens) is exactly 24 characters of uppercase hexadecimal. -/
theorem generated_ids_format (u1 u2 u3 u4 u5 u6 : Str)
    (hu : ∀ u ∈ [u1, u2, u3, u4, u5, u6],
      (∀ c ∈ u, c ∈ strLit "0123456789abcdef-") ∧
        24 ≤ (u.filter (fun c => c != '-')).length) :
    (∀ pr ∈ files_to_add (genId u1) (genId u2) (genId u3),
        pr.2.length = 24 ∧ ∀ c ∈ pr.2, c ∈ strLit "0123456789ABCDEF") ∧
    (∀ u ∈ [u4, u5, u6],
        (genId u).length = 24 ∧ ∀ c ∈ genId u, c ∈ strLit "0123456789ABCDEF") := by
  have g1 := genId_ok u1 (hu u1 (by simp)).1 (hu u1 (by simp)).2
  have g2 := genId_ok u2 (hu u2 (by simp)).1 (hu u2 (by simp)).2
  have g3 := genId_ok u3 (hu u3 (by simp)).1 (hu u3 (by simp)).2
  have g4 := genId_ok u4 (hu u4 (by simp)).1 (hu u4 (by simp)).2
  have g5 := genId_ok u5 (hu u5 (by simp)).1 (hu u5 (by simp)).2
  have g6 := genId_ok u6 (hu u6 (by simp)).1 (hu u6 (by simp)).2
  constructor
  · intro pr hpr
    simp only [files_to_add, List.mem_cons, List.not_mem_nil, or_false] at hpr
    rcases hpr with rfl | rfl | rfl
    · exact g1
    · exact g2
    · exact g3
  · intro u huu
    simp only [List.mem_cons, List.not_mem_nil, or_false] at huu
    rcases huu with rfl | rfl | rfl
    · exact g4
    · exact g5
    · exact g6

/-- Witness for C6 at six concrete UUID strings. -/
theorem generated_ids_format_witness :
    (∀ pr ∈ files_to_add (genId (strLit "a1b2c3d4-e5f6-4a7b-8c9d-0e1f2a3b4c5d"))
        (genId (strLit "00112233-4455-4677-8899-aabbccddeeff"))
        (genId (strLit "deadbeef-cafe-4bad-a11c-e0ffee000001")),
        pr.2.length = 24 ∧ ∀ c ∈ pr.2, c ∈ strLit "0123456789ABCDEF") ∧
    (∀ u ∈ [strLit "0f0e0d0c-0b0a-4908-8706-050403020100",
        strLit "12345678-9abc-4def-8123-456789abcdef",
        strLit "fedcba98-7654-4321-8fed-cba987654321"],
        (genId u).length = 24 ∧ ∀ c ∈ genId u, c ∈ strLit "0123456789ABCDEF") :=
  generated_ids_format _ _ _ _ _ _ (by decide)

/-- C3: if none of the three anchor patterns matches the document, the
patched document is byte-identical to the input, the confirmation message
(header plus one line per entry) is still produced, and a complete successful
run (read, transform, write) exists whose final disk content equals the
input. -/
theorem no_anchors_noop (i1 i2 i3 b1 b2 b3 content m0 : Str)
    (h1 : searchSpan fileRefPre fileRefSuf content = none)
    (h2 : findSub groupAnchor content = none)
    (h3 : findSub sourcesAnchor content = none) :
    patch i1 i2 i3 b1 b2 b3 content = content ∧
    confirmation (files_to_add i1 i2 i3) =
      [strLit "Successfully added files to Xcode project:",
       strLit "  - " ++ name1 ++ strLit " (" ++ i1 ++ strLit ")",
       strLit "  - " ++ name2 ++ strLit " (" ++ i2 ++ strLit ")",
       strLit "  - " ++ name3 ++ strLit " (" ++ i3 ++ strLit ")"] ∧
    Exec i1 i2 i3 b1 b2 b3 ⟨Stage.start, content, m0⟩
      [Ev.evRead, Ev.evTransform, Ev.evWrite] ⟨Stage.written, content, content⟩ := by
  have hp : patch i1 i2 i3 b1 b2 b3 content = content := by
    unfold patch
    rw [step1_none _ h1, step2_none _ h2, step3_none _ _ _ _ h3]
  refine ⟨hp, by simp [confirmation, files_to_add], ?_⟩
  have hw : Exec i1 i2 i3 b1 b2 b3 ⟨Stage.start, content, m0⟩
      [Ev.evRead, Ev.evTransform, Ev.evWrite]
      ⟨Stage.written, patch i1 i2 i3 b1 b2 b3 content, patch i1 i2 i3 b1 b2 b3 content⟩ :=
    Exec.cons (ProgStep.read content m0)
      (Exec.cons (ProgStep.transform content content)
        (Exec.cons (ProgStep.write content (patch i1 i2 i3 b1 b2 b3 content)) (Exec.nil _)))
  rw [hp] at hw
  exact hw

/-- Witness for C3 on a small anchor-free document. -/
theorem no_anchors_noop_witness :
    patch (strLit "ID1") (strLit "ID2") (strLit "ID3") (strLit "B1") (strLit "B2")
        (strLit "B3") (strLit "hello world") = strLit "hello world" ∧
    confirmation (files_to_add (strLit "ID1") (strLit "ID2") (strLit "ID3")) =
      [strLit "Successfully added files to Xcode project:",
       strLit "  - " ++ name1 ++ strLit " (" ++ strLit "ID1" ++ strLit ")",
       strLit "  - " ++ name2 ++ strLit " (" ++ strLit "ID2" ++ strLit ")",
       strLit "  - " ++ name3 ++ strLit " (" ++ strLit "ID3" ++ strLit ")"] ∧
    Exec (strLit "ID1") (strLit "ID2") (strLit "ID3") (strLit "B1") (strLit "B2") (strLit "B3")
      ⟨Stage.start, strLit "hello world", []⟩
      [Ev.evRead, Ev.evTransform, Ev.evWrite]
      ⟨Stage.written, strLit "hello world", strLit "hello world"⟩ :=
  no_anchors_noop (strLit "ID1") (strLit "ID2") (strLit "ID3") (strLit "B1") (strLit "B2")
    (strLit "B3") (strLit "hello world") [] (by decide) (by decide) (by decide)

/-- C5: along any execution of the script started on disk content `d0`, the
write event happens at most once; while the run has not reached the written
phase the disk still holds `d0` (so a crash before the final write, including
a failed read, leaves the file untouched); once written, the disk holds the
patched text; and no step leaves the written phase, so the write is the very
last step. -/
theorem file_written_once_last (i1 i2 i3 b1 b2 b3 d0 m0 : Str) (evs : List Ev) (s : MState)
    (hexec : Exec i1 i2 i3 b1 b2 b3 ⟨Stage.start, d0, m0⟩ evs s) :
    evs.count Ev.evWrite ≤ 1 ∧
    (s.stage ≠ Stage.written → s.disk = d0) ∧
    (s.stage = Stage.written → s.disk = patch i1 i2 i3 b1 b2 b3 d0) ∧
    (∀ e s', ProgStep i1 i2 i3 b1 b2 b3 s e s' → s.stage ≠ Stage.written) := by
  have hcount := exec_count_write i1 i2 i3 b1 b2 b3 hexec
  have hinv := exec_inv i1 i2 i3 b1 b2 b3 d0 hexec (show d0 = d0 from rfl)
  refine ⟨?_, ?_, ?_, ?_⟩
  · simp only [writeFlag] at hcount
    rcases s with ⟨st, dk, mm⟩
    cases st <;> simp only [writeFlag] at hcount <;> omega
  · intro hne
    rcases s with ⟨st, dk, mm⟩
    cases st with
    | start => exact hinv
    | readDone => exact hinv.1
    | patched => exact hinv.1
    | written => exact absurd rfl hne
  · intro hw
    rcases s with ⟨st, dk, mm⟩
    cases st with
    | start => exact absurd hw (by simp)
    | readDone => exact absurd hw (by simp)
    | patched => exact absurd hw (by simp)
    | written => exact hinv
  · intro e s' hstep
    cases hstep <;> simp

/-- Witness for C5: a complete concrete run of the machine. -/
theorem file_written_once_last_witness :
    [Ev.evRead, Ev.evTransform, Ev.evWrite].count Ev.evWrite ≤ 1 ∧
    ((⟨Stage.written, patch [] [] [] [] [] [] [], patch [] [] [] [] [] [] []⟩ : MState).stage ≠
        Stage.written →
      (⟨Stage.written, patch [] [] [] [] [] [] [], patch [] [] [] [] [] [] []⟩ : MState).disk = []) ∧
    ((⟨Stage.written, patch [] [] [] [] [] [] [], patch [] [] [] [] [] [] []⟩ : MState).stage =
        Stage.written →
      (⟨Stage.written, patch [] [] [] [] [] [] [], patch [] [] [] [] [] [] []⟩ : MState).disk =
        patch [] [] [] [] [] [] []) ∧
    (∀ e s', ProgStep [] [] [] [] [] []
        ⟨Stage.written, patch [] [] [] [] [] [] [], patch [] [] [] [] [] [] []⟩ e s' →
      (⟨Stage.written, patch [] [] [] [] [] [] [], patch [] [] [] [] [] [] []⟩ : MState).stage ≠
        Stage.written) :=
  file_written_once_last [] [] [] [] [] [] [] [] [Ev.evRead, Ev.evTransform, Ev.evWrite]
    ⟨Stage.written, patch [] [] [] [] [] [] [], patch [] [] [] [] [] [] []⟩
    (Exec.cons (ProgStep.read [] [])
      (Exec.cons (ProgStep.transform [] [])
        (Exec.cons (ProgStep.write [] (patch [] [] [] [] [] [] [])) (Exec.nil _))))

/-- C7: the patcher is not idempotent: a second run with fresh identifiers on
an already-patched document inserts again.  If the group anchor occurs in the
document and still occurs in the once-patched document (patching only inserts
text and does not touch the anchor), then each run strictly increases the
length, so the once-patched document differs from the input and the
twice-patched document differs from the once-patched one. -/
theorem patch_not_idempotent (a1 a2 a3 ab1 ab2 ab3 c1 c2 c3 cb1 cb2 cb3 doc : Str)
    (h0 : (findSub groupAnchor doc).isSome = true)
    (h1 : (findSub groupAnchor (patch a1 a2 a3 ab1 ab2 ab3 doc)).isSome = true) :
    doc.length < (patch a1 a2 a3 ab1 ab2 ab3 doc).length ∧
    (patch a1 a2 a3 ab1 ab2 ab3 doc).length <
      (patch c1 c2 c3 cb1 cb2 cb3 (patch a1 a2 a3 ab1 ab2 ab3 doc)).length ∧
    patch a1 a2 a3 ab1 ab2 ab3 doc ≠ doc ∧
    patch c1 c2 c3 cb1 cb2 cb3 (patch a1 a2 a3 ab1 ab2 ab3 doc) ≠
      patch a1 a2 a3 ab1 ab2 ab3 doc := by
  have g1 := patch_grows a1 a2 a3 ab1 ab2 ab3 doc h0
  have g2 := patch_grows c1 c2 c3 cb1 cb2 cb3 _ h1
  refine ⟨g1, g2, ?_, ?_⟩
  · intro he
    rw [he] at g1
    omega
  · intro he
    rw [he] at g2
    omega

/-- Witness for C7: the group anchor alone is a document on which two runs
with distinct identifiers each grow the document. -/
theorem patch_not_idempotent_witness :
    groupAnchor.length < (patch wid1 wid2 wid3 wbid1 wbid2 wbid3 groupAnchor).length ∧
    (patch wid1 wid2 wid3 wbid1 wbid2 wbid3 groupAnchor).length <
      (patch (strLit "CCCCCCCCCCCCCCCCCCCCCCC1") (strLit "CCCCCCCCCCCCCCCCCCCCCCC2")
        (strLit "CCCCCCCCCCCCCCCCCCCCCCC3") (strLit "DDDDDDDDDDDDDDDDDDDDDDD1")
        (strLit "DDDDDDDDDDDDDDDDDDDDDDD2") (strLit "DDDDDDDDDDDDDDDDDDDDDDD3")
        (patch wid1 wid2 wid3 wbid1 wbid2 wbid3 groupAnchor)).length ∧
    patch wid1 wid2 wid3 wbid1 wbid2 wbid3 groupAnchor ≠ groupAnchor ∧
    patch (strLit "CCCCCCCCCCCCCCCCCCCCCCC1") (strLit "CCCCCCCCCCCCCCCCCCCCCCC2")
        (strLit "CCCCCCCCCCCCCCCCCCCCCCC3") (strLit "DDDDDDDDDDDDDDDDDDDDDDD1")
        (strLit "DDDDDDDDDDDDDDDDDDDDDDD2") (strLit "DDDDDDDDDDDDDDDDDDDDDDD3")
        (patch wid1 wid2 wid3 wbid1 wbid2 wbid3 groupAnchor) ≠
      patch wid1 wid2 wid3 wbid1 wbid2 wbid3 groupAnchor :=
  patch_not_idempotent wid1 wid2 wid3 wbid1 wbid2 wbid3
    (strLit "CCCCCCCCCCCCCCCCCCCCCCC1") (strLit "CCCCCCCCCCCCCCCCCCCCCCC2")
    (strLit "CCCCCCCCCCCCCCCCCCCCCCC3") (strLit "DDDDDDDDDDDDDDDDDDDDDDD1")
    (strLit "DDDDDDDDDDDDDDDDDDDDDDD2") (strLit "DDDDDDDDDDDDDDDDDDDDDDD3")
    groupAnchor (by decide) (by decide)

theorem occurs_name_fileRefLine (fn fid : Str) : Occurs fn (fileRefLine fn fid) := by
  have he : fileRefLine fn fid =
      (strLit "\t\t" ++ fid ++ strLit " /* ") ++ fn ++
        (strLit " */ = \x7bisa = PBXFileReference; lastKnownFileType = sourcecode.swift; path = " ++
          fn ++ strLit "; sourceTree = \"<group>\"; \x7d;") := by
    simp [fileRefLine, List.append_assoc]
  rw [he]
  exact occurs_mid _ _ _

theorem occurs_name_groupLine (fn fid : Str) : Occurs fn (groupLine fn fid) := by
  have he : groupLine fn fid =
      (strLit "\t\t\t\t" ++ fid ++ strLit " /* ") ++ fn ++ strLit " */," := by
    simp [groupLine, List.append_assoc]
  rw [he]
  exact occurs_mid _ _ _

theorem occurs_name_buildFileLine (fn fid bid : Str) : Occurs fn (buildFileLine fn fid bid) := by
  have he : buildFileLine fn fid bid =
      (strLit "\t\t" ++ bid ++ strLit " /* ") ++ fn ++
        (strLit " in Sources */ = \x7bisa = PBXBuildFile; fileRef = " ++ fid ++
          strLit " /* " ++ fn ++ strLit " */; \x7d;") := by
    simp [buildFileLine, List.append_assoc]
  rw [he]
  exact occurs_mid _ _ _

theorem occurs_name_sourcesLine (fn bid : Str) : Occurs fn (sourcesLine fn bid) := by
  have he : sourcesLine fn bid =
      (strLit "\t\t\t\t" ++ bid ++ strLit " /* ") ++ fn ++ strLit " in Sources */," := by
    simp [sourcesLine, List.append_assoc]
  rw [he]
  exact occurs_mid _ _ _

/-- C1 (amended): for a document that contains the three anchor lines AND the
`PBXBuildFile` section header, the patcher inserts exactly 3
reference-declaration lines, exactly 3 group-membership lines, exactly 3
build-file-declaration lines and exactly 3 build-phase-membership lines, each
containing the name of the entry it was generated for
(see `AllAnchorsOutcome`). -/
theorem patch_all_anchors_inserts (i1 i2 i3 b1 b2 b3 content : Str)
    (h1 : (searchSpan fileRefPre fileRefSuf content).isSome = true)
    (h2 : (findSub groupAnchor content).isSome = true)
    (h3 : (findSub sourcesAnchor content).isSome = true)
    (h4 : (findSub buildFileAnchor content).isSome = true) :
    AllAnchorsOutcome i1 i2 i3 b1 b2 b3 content := by
  rcases Option.isSome_iff_exists.1 h1 with ⟨e, he⟩
  have hmap1 : (files_to_add i1 i2 i3).map (fun p => fileRefLine p.1 p.2) =
      [fileRefLine name1 i1, fileRefLine name2 i2, fileRefLine name3 i3] := rfl
  have hc1 : step1 (files_to_add i1 i2 i3) content =
      insertAt content e (newline ++ joinNL
        [fileRefLine name1 i1, fileRefLine name2 i2, fileRefLine name3 i3]) := by
    rw [step1_found _ he, hmap1]
  have hga1 : Occurs groupAnchor (step1 (files_to_add i1 i2 i3) content) :=
    occurs_step1 _ groupAnchor_no_semi (occurs_of_isSome h2)
  rcases Option.isSome_iff_exists.1 (isSome_of_occurs hga1) with ⟨g, hg⟩
  have hmap2 : (files_to_add i1 i2 i3).map (fun p => groupLine p.1 p.2) =
      [groupLine name1 i1, groupLine name2 i2, groupLine name3 i3] := rfl
  have hc2 : step2 (files_to_add i1 i2 i3) (step1 (files_to_add i1 i2 i3) content) =
      insertAt (step1 (files_to_add i1 i2 i3) content) (g + groupAnchor.length)
        (newline ++ joinNL [groupLine name1 i1, groupLine name2 i2, groupLine name3 i3]) := by
    rw [step2_found _ hg, hmap2]
  have hsa2 : Occurs sourcesAnchor
      (step2 (files_to_add i1 i2 i3) (step1 (files_to_add i1 i2 i3) content)) :=
    occurs_step2 _ sourcesAnchor_no_comma
      (occurs_step1 _ sourcesAnchor_no_semi (occurs_of_isSome h3))
  rcases Option.isSome_iff_exists.1 (isSome_of_occurs hsa2) with ⟨p, hp⟩
  have hbf2 : Occurs buildFileAnchor
      (step2 (files_to_add i1 i2 i3) (step1 (files_to_add i1 i2 i3) content)) :=
    occurs_step2 _ buildFileAnchor_no_comma
      (occurs_step1 _ buildFileAnchor_no_semi (occurs_of_isSome h4))
  rcases Option.isSome_iff_exists.1 (isSome_of_occurs hbf2) with ⟨q, hq⟩
  have hzip : (files_to_add i1 i2 i3).zip [b1, b2, b3] =
      [((name1, i1), b1), ((name2, i2), b2), ((name3, i3), b3)] := rfl
  have hpatch : patch i1 i2 i3 b1 b2 b3 content =
      insertAt
        ((step2 (files_to_add i1 i2 i3) (step1 (files_to_add i1 i2 i3) content)).take
            (q + buildFileAnchor.length) ++
          ((newline ++ buildFileLine name3 i3 b3) ++
           ((newline ++ buildFileLine name2 i2 b2) ++
            ((newline ++ buildFileLine name1 i1 b1) ++
              (step2 (files_to_add i1 i2 i3)
                (step1 (files_to_add i1 i2 i3) content)).drop (q + buildFileAnchor.length)))))
        (p + sourcesAnchor.length)
        (newline ++ joinNL [sourcesLine name1 b1, sourcesLine name2 b2, sourcesLine name3 b3]) := by
    show step3 (files_to_add i1 i2 i3) b1 b2 b3
        (step2 (files_to_add i1 i2 i3) (step1 (files_to_add i1 i2 i3) content)) = _
    rw [step3_found _ _ _ _ hp, hzip,
      buildLoop_found (name1, i1) (name2, i2) (name3, i3) b1 b2 b3 hq]
  exact ⟨e, g, p, q, he, hc1, hg, hc2, hp, hq, hpatch,
    ⟨occurs_name_fileRefLine _ _, occurs_name_fileRefLine _ _, occurs_name_fileRefLine _ _⟩,
    ⟨occurs_name_groupLine _ _, occurs_name_groupLine _ _, occurs_name_groupLine _ _⟩,
    ⟨occurs_name_buildFileLine _ _ _, occurs_name_buildFileLine _ _ _,
      occurs_name_buildFileLine _ _ _⟩,
    ⟨occurs_name_sourcesLine _ _, occurs_name_sourcesLine _ _, occurs_name_sourcesLine _ _⟩⟩

/-- Witness for the amended C1 on a concrete document containing all four
anchors. -/
theorem patch_all_anchors_inserts_witness :
    AllAnchorsOutcome wid1 wid2 wid3 wbid1 wbid2 wbid3 docAllAnchors :=
  patch_all_anchors_inserts wid1 wid2 wid3 wbid1 wbid2 wbid3 docAllAnchors
    (by decide) (by decide) (by decide) (by decide)

/-- C1 as stated is false: `docNoBuildHeader` contains the three anchor lines
verbatim, yet the run inserts no build-file-declaration line at all (the
marker `isa = PBXBuildFile;`, present in every build-file-declaration line,
occurs zero times both before and after patching), not exactly 3. -/
theorem patch_three_anchors_counterexample :
    (searchSpan fileRefPre fileRefSuf docNoBuildHeader).isSome = true ∧
    (findSub groupAnchor docNoBuildHeader).isSome = true ∧
    (findSub sourcesAnchor docNoBuildHeader).isSome = true ∧
    findSub buildFileAnchor docNoBuildHeader = none ∧
    countOccur (strLit "isa = PBXBuildFile;") docNoBuildHeader = 0 ∧
    countOccur (strLit "isa = PBXBuildFile;")
      (patch wid1 wid2 wid3 wbid1 wbid2 wbid3 docNoBuildHeader) = 0 := by
  decide

/-- C2: when the build-phase anchor is found at `p` (steps 1 and 2 having
been skipped here so that the document entering step 3 is the input itself),
the joined membership lines are inserted into the post-loop document at the
offset `p + sourcesAnchor.length` computed from the match made BEFORE the
per-entry loop; when the `PBXBuildFile` header precedes the anchor, the
anchor in the post-loop document has moved to `p` plus the total size of the
three per-entry insertions, so the stale offset no longer points at the
anchor's current end. -/
theorem step3_stale_offset (i1 i2 i3 b1 b2 b3 content : Str) (p q : Nat)
    (h1 : searchSpan fileRefPre fileRefSuf content = none)
    (h2 : findSub groupAnchor content = none)
    (hp : findSub sourcesAnchor content = some p)
    (hq : findSub buildFileAnchor content = some q)
    (hqp : q + buildFileAnchor.length ≤ p) :
    patch i1 i2 i3 b1 b2 b3 content =
      insertAt (buildLoop ((files_to_add i1 i2 i3).zip [b1, b2, b3]) content).1
        (p + sourcesAnchor.length)
        (newline ++ joinNL (buildLoop ((files_to_add i1 i2 i3).zip [b1, b2, b3]) content).2) ∧
    OccursAt sourcesAnchor
      (buildLoop ((files_to_add i1 i2 i3).zip [b1, b2, b3]) content).1
      (p + (3 + ((buildFileLine name1 i1 b1).length + (buildFileLine name2 i2 b2).length +
        (buildFileLine name3 i3 b3).length))) ∧
    p + sourcesAnchor.length <
      (p + (3 + ((buildFileLine name1 i1 b1).length + (buildFileLine name2 i2 b2).length +
        (buildFileLine name3 i3 b3).length))) + sourcesAnchor.length := by
  have hqs : q + buildFileAnchor.length ≤ content.length :=
    occursAt_length (findSub_some hq) (by decide)
  have hzip : (files_to_add i1 i2 i3).zip [b1, b2, b3] =
      [((name1, i1), b1), ((name2, i2), b2), ((name3, i3), b3)] := rfl
  have hbl := buildLoop_found (name1, i1) (name2, i2) (name3, i3) b1 b2 b3 hq
  have hblrw : (buildLoop ((files_to_add i1 i2 i3).zip [b1, b2, b3]) content).1 =
      insertAt content (q + buildFileAnchor.length)
        ((newline ++ buildFileLine name3 i3 b3) ++
         ((newline ++ buildFileLine name2 i2 b2) ++ (newline ++ buildFileLine name1 i1 b1))) := by
    rw [hzip, hbl]
    simp [insertAt, List.append_assoc]
  refine ⟨?_, ?_, ?_⟩
  · show step3 (files_to_add i1 i2 i3) b1 b2 b3
        (step2 (files_to_add i1 i2 i3) (step1 (files_to_add i1 i2 i3) content)) = _
    rw [step1_none _ h1, step2_none _ h2, step3_found _ _ _ _ hp]
  · have hocc := occursAt_insertAt_right (B :=
      (newline ++ buildFileLine name3 i3 b3) ++
        ((newline ++ buildFileLine name2 i2 b2) ++ (newline ++ buildFileLine name1 i1 b1)))
      (findSub_some hp) hqp (by omega)
    have hlen : ((newline ++ buildFileLine name3 i3 b3) ++
        ((newline ++ buildFileLine name2 i2 b2) ++ (newline ++ buildFileLine name1 i1 b1))).length =
        3 + ((buildFileLine name1 i1 b1).length + (buildFileLine name2 i2 b2).length +
          (buildFileLine name3 i3 b3).length) := by
      simp [List.length_append, newline, strLit]
      omega
    rw [hblrw]
    rw [← hlen]
    exact hocc
  · omega

/-- Witness for C2 on a concrete document in which the header precedes the
build-phase anchor. -/
theorem step3_stale_offset_witness :
    patch wid1 wid2 wid3 wbid1 wbid2 wbid3 docHeaderFirst =
      insertAt (buildLoop ((files_to_add wid1 wid2 wid3).zip [wbid1, wbid2, wbid3])
          docHeaderFirst).1
        (37 + sourcesAnchor.length)
        (newline ++ joinNL (buildLoop ((files_to_add wid1 wid2 wid3).zip
          [wbid1, wbid2, wbid3]) docHeaderFirst).2) ∧
    OccursAt sourcesAnchor
      (buildLoop ((files_to_add wid1 wid2 wid3).zip [wbid1, wbid2, wbid3]) docHeaderFirst).1
      (37 + (3 + ((buildFileLine name1 wid1 wbid1).length +
        (buildFileLine name2 wid2 wbid2).length + (buildFileLine name3 wid3 wbid3).length))) ∧
    37 + sourcesAnchor.length <
      (37 + (3 + ((buildFileLine name1 wid1 wbid1).length +
        (buildFileLine name2 wid2 wbid2).length +
        (buildFileLine name3 wid3 wbid3).length))) + sourcesAnchor.length :=
  step3_stale_offset wid1 wid2 wid3 wbid1 wbid2 wbid3 docHeaderFirst 37 0
    (by decide) (by decide) (by decide) (by decide) (by decide)

/-- C4: on a document whose reference-declaration and build-phase anchors are
present but whose group-membership anchor is absent (also after step 1's
insertion, which only adds reference lines), the reference-declaration
insertion and the build-phase insertion still occur while step 2 leaves the
document unchanged: the steps are independent and a missing anchor does not
abort the others. -/
theorem steps_independent (i1 i2 i3 b1 b2 b3 content : Str)
    (h1 : (searchSpan fileRefPre fileRefSuf content).isSome = true)
    (h2 : findSub groupAnchor content = none)
    (h2b : findSub groupAnchor (step1 (files_to_add i1 i2 i3) content) = none)
    (h3 : (findSub sourcesAnchor content).isSome = true) :
    ∃ e pf,
      searchSpan fileRefPre fileRefSuf content = some e ∧
      step1 (files_to_add i1 i2 i3) content =
        insertAt content e (newline ++ joinNL
          [fileRefLine name1 i1, fileRefLine name2 i2, fileRefLine name3 i3]) ∧
      step2 (files_to_add i1 i2 i3) (step1 (files_to_add i1 i2 i3) content) =
        step1 (files_to_add i1 i2 i3) content ∧
      findSub sourcesAnchor (step1 (files_to_add i1 i2 i3) content) = some pf ∧
      patch i1 i2 i3 b1 b2 b3 content =
        insertAt (buildLoop ((files_to_add i1 i2 i3).zip [b1, b2, b3])
            (step1 (files_to_add i1 i2 i3) content)).1
          (pf + sourcesAnchor.length)
          (newline ++ joinNL (buildLoop ((files_to_add i1 i2 i3).zip [b1, b2, b3])
            (step1 (files_to_add i1 i2 i3) content)).2) := by
  rcases Option.isSome_iff_exists.1 h1 with ⟨e, he⟩
  have hmap1 : (files_to_add i1 i2 i3).map (fun p => fileRefLine p.1 p.2) =
      [fileRefLine name1 i1, fileRefLine name2 i2, fileRefLine name3 i3] := rfl
  have hc1 : step1 (files_to_add i1 i2 i3) content =
      insertAt content e (newline ++ joinNL
        [fileRefLine name1 i1, fileRefLine name2 i2, fileRefLine name3 i3]) := by
    rw [step1_found _ he, hmap1]
  have hsa1 : Occurs sourcesAnchor (step1 (files_to_add i1 i2 i3) content) :=
    occurs_step1 _ sourcesAnchor_no_semi (occurs_of_isSome h3)
  rcases Option.isSome_iff_exists.1 (isSome_of_occurs hsa1) with ⟨pf, hpf⟩
  have hstep2 : step2 (files_to_add i1 i2 i3) (step1 (files_to_add i1 i2 i3) content) =
      step1 (files_to_add i1 i2 i3) content := step2_none _ h2b
  refine ⟨e, pf, he, hc1, hstep2, hpf, ?_⟩
  show step3 (files_to_add i1 i2 i3) b1 b2 b3
      (step2 (files_to_add i1 i2 i3) (step1 (files_to_add i1 i2 i3) content)) = _
  rw [hstep2, step3_found _ _ _ _ hpf]

/-- Witness for C4 on a concrete document missing the group anchor. -/
theorem steps_independent_witness :
    ∃ e pf,
      searchSpan fileRefPre fileRefSuf docNoGroup = some e ∧
      step1 (files_to_add wid1 wid2 wid3) docNoGroup =
        insertAt docNoGroup e (newline ++ joinNL
          [fileRefLine name1 wid1, fileRefLine name2 wid2, fileRefLine name3 wid3]) ∧
      step2 (files_to_add wid1 wid2 wid3) (step1 (files_to_add wid1 wid2 wid3) docNoGroup) =
        step1 (files_to_add wid1 wid2 wid3) docNoGroup ∧
      findSub sourcesAnchor (step1 (files_to_add wid1 wid2 wid3) docNoGroup) = some pf ∧
      patch wid1 wid2 wid3 wbid1 wbid2 wbid3 docNoGroup =
        insertAt (buildLoop ((files_to_add wid1 wid2 wid3).zip [wbid1, wbid2, wbid3])
            (step1 (files_to_add wid1 wid2 wid3) docNoGroup)).1
          (pf + sourcesAnchor.length)
          (newline ++ joinNL (buildLoop ((files_to_add wid1 wid2 wid3).zip
            [wbid1, wbid2, wbid3]) (step1 (files_to_add wid1 wid2 wid3) docNoGroup)).2) :=
  steps_independent wid1 wid2 wid3 wbid1 wbid2 wbid3 docNoGroup
    (by decide) (by decide) (by decide) (by decide)

/-- C9: when the build-phase anchor and the build-file-section header are
both present, each entry's build-file-declaration line is inserted right
after the first occurrence of the header in the current document, so after
the per-entry loop the three declaration lines stand directly after the
header in reverse entry order, and step 3 then performs its final membership
insertion on that post-loop document. -/
theorem buildLoop_reverse_after_header (i1 i2 i3 b1 b2 b3 c : Str) (p q : Nat)
    (hp : findSub sourcesAnchor c = some p)
    (hq : findSub buildFileAnchor c = some q) :
    (buildLoop ((files_to_add i1 i2 i3).zip [b1, b2, b3]) c).1 =
      c.take (q + buildFileAnchor.length) ++
        ((newline ++ buildFileLine name3 i3 b3) ++
         ((newline ++ buildFileLine name2 i2 b2) ++
          ((newline ++ buildFileLine name1 i1 b1) ++ c.drop (q + buildFileAnchor.length)))) ∧
    (buildLoop ((files_to_add i1 i2 i3).zip [b1, b2, b3]) c).2 =
      [sourcesLine name1 b1, sourcesLine name2 b2, sourcesLine name3 b3] ∧
    c.drop q = buildFileAnchor ++ c.drop (q + buildFileAnchor.length) ∧
    step3 (files_to_add i1 i2 i3) b1 b2 b3 c =
      insertAt (buildLoop ((files_to_add i1 i2 i3).zip [b1, b2, b3]) c).1
        (p + sourcesAnchor.length)
        (newline ++ joinNL (buildLoop ((files_to_add i1 i2 i3).zip [b1, b2, b3]) c).2) := by
  have hzip : (files_to_add i1 i2 i3).zip [b1, b2, b3] =
      [((name1, i1), b1), ((name2, i2), b2), ((name3, i3), b3)] := rfl
  have hbl := buildLoop_found (name1, i1) (name2, i2) (name3, i3) b1 b2 b3 hq
  refine ⟨?_, ?_, ?_, step3_found _ _ _ _ hp⟩
  · rw [hzip, hbl]
  · rw [hzip, hbl]
  · rcases findSub_some hq with ⟨t, ht⟩
    have ht2 : t = c.drop (q + buildFileAnchor.length) := by
      have h2 : (buildFileAnchor ++ t).drop buildFileAnchor.length = t := by
        rw [dropAppendGe _ _ _ (le_refl _), Nat.sub_self, List.drop_zero]
      rw [← List.drop_drop, ← ht, h2]
    rw [← ht, ht2]

/-- Witness for C9 on a concrete document with both anchors. -/
theorem buildLoop_reverse_after_header_witness :
    (buildLoop ((files_to_add wid1 wid2 wid3).zip [wbid1, wbid2, wbid3]) docHeaderFirst).1 =
      docHeaderFirst.take (0 + buildFileAnchor.length) ++
        ((newline ++ buildFileLine name3 wid3 wbid3) ++
         ((newline ++ buildFileLine name2 wid2 wbid2) ++
          ((newline ++ buildFileLine name1 wid1 wbid1) ++
            docHeaderFirst.drop (0 + buildFileAnchor.length)))) ∧
    (buildLoop ((files_to_add wid1 wid2 wid3).zip [wbid1, wbid2, wbid3]) docHeaderFirst).2 =
      [sourcesLine name1 wbid1, sourcesLine name2 wbid2, sourcesLine name3 wbid3] ∧
    docHeaderFirst.drop 0 = buildFileAnchor ++ docHeaderFirst.drop (0 + buildFileAnchor.length) ∧
    step3 (files_to_add wid1 wid2 wid3) wbid1 wbid2 wbid3 docHeaderFirst =
      insertAt (buildLoop ((files_to_add wid1 wid2 wid3).zip [wbid1, wbid2, wbid3])
          docHeaderFirst).1
        (37 + sourcesAnchor.length)
        (newline ++ joinNL (buildLoop ((files_to_add wid1 wid2 wid3).zip
          [wbid1, wbid2, wbid3]) docHeaderFirst).2) :=
  buildLoop_reverse_after_header wid1 wid2 wid3 wbid1 wbid2 wbid3 docHeaderFirst 37 0
    (by decide) (by decide)

end XcodePatch
